import Mathlib

set_option maxRecDepth 4000

/- Verification of the Smart-EMR retrieval and summarization core against its
natural-language specification.  The Python functions from `backend/` are
shallowly embedded as Lean definitions; the floating-point similarity scores,
which no claim constrains numerically, are modelled as integers supplied by
oracle parameters standing for the embedding model and the vector backends,
and `json.loads` / `json.dumps` are oracle parameters over a small JSON
value type. -/

namespace SmartEmr

/-! ### Python string and slicing primitives -/

/-- Core of Python `str.split()` (split on whitespace runs, dropping empty
pieces) at the character-list level.  `acc` holds the current in-progress word,
reversed. -/
def wordsAux : List Char → List Char → List (List Char)
  | [], acc => if acc.isEmpty then [] else [acc.reverse]
  | c :: rest, acc =>
    if c.isWhitespace then
      if acc.isEmpty then wordsAux rest [] else acc.reverse :: wordsAux rest []
    else wordsAux rest (c :: acc)

/-- Python `text.split()` with no separator argument. -/
def pySplit (s : String) : List String :=
  (wordsAux s.data []).map (fun cs => String.mk cs)

/-- Clamp a Python slice bound into `[0, n]` (negative values count from the
end, as in Python). -/
def pyBound (n : Nat) (v : Int) : Nat :=
  if v < 0 then (if (n : Int) + v < 0 then 0 else ((n : Int) + v).toNat)
  else min v.toNat n

/-- Python slice `l[start:stop]`. -/
def pySlice {α : Type} (l : List α) (start stop : Int) : List α :=
  let s := pyBound l.length start
  let e := pyBound l.length stop
  (l.drop s).take (e - s)

theorem pyBound_natCast (n a : Nat) : pyBound n (a : Nat) = min a n := by
  simp [pyBound]

/-- On nonnegative bounds a Python slice is plain drop-and-take. -/
theorem pySlice_natCast {α : Type} (l : List α) (a b : Nat) :
    pySlice l (a : Nat) (b : Nat) = (l.drop a).take (b - a) := by
  unfold pySlice
  rw [pyBound_natCast, pyBound_natCast]
  rcases le_or_lt a l.length with ha | ha
  · rw [min_eq_left ha]
    rcases le_or_lt b l.length with hb | hb
    · rw [min_eq_left hb]
    · rw [min_eq_right hb.le]
      rcases le_or_lt b a with hba | hba
      · have h1 : l.length - a = 0 := by omega
        have h2 : b - a = 0 := by omega
        simp [h1, h2]
      · refine (List.take_of_length_le ?_).trans (List.take_of_length_le ?_).symm
        · simp only [List.length_drop]; omega
        · simp only [List.length_drop]; omega
  · rw [min_eq_right ha.le]
    have h2 : min b l.length ≤ l.length := min_le_right _ _
    have hd : l.drop l.length = [] := by simp
    have hd2 : l.drop a = [] := List.drop_eq_nil_of_le ha.le
    simp [hd, hd2]

/-! ### Chunker (`backend/rag_prototype.py`, `chunk_text`, lines 46-57) -/

/-- The `while i < len(words)` loop of `chunk_text`, with explicit fuel.
`none` means the run did not finish within the fuel; for a positive step the
fuel used by `chunk_text` below always suffices, so a `none` at every fuel
models divergence of the Python loop. -/
def chunkLoop (words : List String) (max_tokens : Nat) (step : Int) :
    Nat → Int → Option (List String)
  | 0, _ => none
  | fuel + 1, i =>
    if i < (words.length : Int) then
      match chunkLoop words max_tokens step fuel (i + step) with
      | none => none
      | some rest =>
          some (String.intercalate " " (pySlice words i (i + (max_tokens : Int))) :: rest)
    else
      some []

/-- Model of `chunk_text(text, max_tokens, overlap)` from `backend/rag_prototype.py`.
The step `max_tokens - overlap` is computed in `ℤ`, exactly as Python does. -/
def chunk_text (text : String) (max_tokens : Nat := 200) (overlap : Nat := 50) :
    Option (List String) :=
  let words := pySplit text
  if words.length ≤ max_tokens then some [text]
  else chunkLoop words max_tokens ((max_tokens : Int) - (overlap : Int))
    (words.length + 1) 0

/-! Spec-side description of the chunker output (spec §4.1): one window of
`max_tokens` words per start offset `0, s, 2s, …` that lies inside the text. -/

/-- Number of window start offsets `0, s, 2s, …` strictly below `n`,
i.e. `⌈n / s⌉`. -/
def specNumChunks (n s : Nat) : Nat := (n + s - 1) / s

/-- The word windows described by spec §4.1. -/
def specWindows (ws : List String) (max_tokens s : Nat) : List (List String) :=
  (List.range (specNumChunks ws.length s)).map
    (fun j => (ws.drop (j * s)).take max_tokens)

/-- The chunk list described by spec §4.1 (each window joined by spaces). -/
def specChunks (ws : List String) (max_tokens s : Nat) : List String :=
  (specWindows ws max_tokens s).map (fun w => String.intercalate " " w)

theorem specNumChunks_step (m s : Nat) (hm : 1 ≤ m) (hs : 1 ≤ s) :
    specNumChunks m s = specNumChunks (m - s) s + 1 := by
  unfold specNumChunks
  have e1 : m + s - 1 = (m - 1) + s := by omega
  rw [e1, Nat.add_div_right _ hs]
  rcases le_or_lt s m with h | h
  · have e2 : m - s + s - 1 = m - 1 := by omega
    rw [e2]
  · have e2 : m - s + s - 1 = s - 1 := by omega
    rw [e2]
    have h1 : (m - 1) / s = 0 := Nat.div_eq_of_lt (by omega)
    have h2 : (s - 1) / s = 0 := Nat.div_eq_of_lt (by omega)
    rw [h1, h2]

theorem specNumChunks_eq_zero (s : Nat) (hs : 1 ≤ s) : specNumChunks 0 s = 0 := by
  unfold specNumChunks
  exact Nat.div_eq_of_lt (by omega)

/-- The chunking loop, started at word offset `i` with a positive step and
enough fuel, produces exactly the spec's windows from offset `i` on. -/
theorem chunkLoop_spec (ws : List String) (maxT s : Nat) (hs : 1 ≤ s) :
    ∀ (fuel i : Nat), ws.length ≤ i + fuel →
      chunkLoop ws maxT (s : Int) (fuel + 1) (i : Int) =
        some ((List.range (specNumChunks (ws.length - i) s)).map
          (fun j => String.intercalate " " ((ws.drop (i + j * s)).take maxT))) := by
  intro fuel
  induction fuel with
  | zero =>
      intro i hi
      have hni : ¬ ((i : Int) < (ws.length : Int)) := by
        simp only [not_lt]; exact_mod_cast hi.trans (by omega)
      have h0 : ws.length - i = 0 := by omega
      simp [chunkLoop, hni, h0, specNumChunks_eq_zero s hs]
  | succ fuel ih =>
      intro i hi
      rcases le_or_lt ws.length i with hle | hlt
      · have hni : ¬ ((i : Int) < (ws.length : Int)) := by
          simp only [not_lt]; exact_mod_cast hle
        have h0 : ws.length - i = 0 := by omega
        simp [chunkLoop, hni, h0, specNumChunks_eq_zero s hs]
      · have hyi : (i : Int) < (ws.length : Int) := by exact_mod_cast hlt
        have hcast : (i : Int) + (s : Int) = ((i + s : Nat) : Int) := by push_cast; ring
        have hrec := ih (i + s) (by omega)
        rw [show (fuel + 1 + 1) = (fuel + 1) + 1 from rfl]
        unfold chunkLoop
        rw [if_pos hyi, hcast, hrec]
        have hnum : specNumChunks (ws.length - i) s =
            specNumChunks (ws.length - (i + s)) s + 1 := by
          have : ws.length - (i + s) = (ws.length - i) - s := by omega
          rw [this]
          exact specNumChunks_step _ s (by omega) hs
        rw [hnum, List.range_succ_eq_map, List.map_cons, List.map_map]
        have hslice : pySlice ws (i : Int) ((i : Int) + (maxT : Int)) =
            (ws.drop i).take maxT := by
          have : (i : Int) + (maxT : Int) = ((i + maxT : Nat) : Int) := by push_cast; ring
          rw [this, pySlice_natCast]
          congr 1
          omega
        simp only [hslice, Nat.zero_mul, Nat.add_zero]
        refine congrArg some (congrArg₂ List.cons rfl ?_)
        refine List.map_congr_left ?_
        intro j hj
        have hidx : i + s + j * s = i + Nat.succ j * s := by
          rw [Nat.succ_mul]; ring
        simp [Function.comp, hidx]

/-- With a nonpositive step (Python `overlap >= max_tokens`) and at least one
word, the chunking loop never leaves its body: it returns `none` at every
fuel, i.e. the Python `while` loop diverges. -/
theorem chunkLoop_none_of_step_nonpos (ws : List String) (maxT : Nat) (step : Int)
    (hstep : step ≤ 0) (hws : 0 < ws.length) :
    ∀ (fuel : Nat) (i : Int), i ≤ 0 → chunkLoop ws maxT step fuel i = none := by
  intro fuel
  induction fuel with
  | zero => intro i _; rfl
  | succ fuel ih =>
      intro i hi
      have hlt : i < (ws.length : Int) :=
        lt_of_le_of_lt hi (by exact_mod_cast hws)
      unfold chunkLoop
      rw [if_pos hlt, ih (i + step) (by omega)]

/-- Characters of a list of words joined by single spaces. -/
def joinWordsCh : List (List Char) → List Char
  | [] => []
  | [w] => w
  | w :: rest => w ++ ' ' :: joinWordsCh rest

/-- Concrete 600-word text used by spec §8's chunker scenario. -/
def text600 : String := String.mk (joinWordsCh (List.replicate 600 ['w']))

/-- Splitting consumes a whitespace-free prefix into the accumulator. -/
theorem wordsAux_append_word (cs : List Char) (hcs : ∀ c ∈ cs, ¬ c.isWhitespace) :
    ∀ (rest acc : List Char),
      wordsAux (cs ++ rest) acc = wordsAux rest (cs.reverse ++ acc) := by
  induction cs with
  | nil => intro rest acc; simp
  | cons c cs ih =>
      intro rest acc
      have hc : ¬ c.isWhitespace := hcs c (List.mem_cons_self c cs)
      have hcs' : ∀ x ∈ cs, ¬ x.isWhitespace := fun x hx => hcs x (List.mem_cons_of_mem c hx)
      simp only [List.cons_append, wordsAux, hc, if_false, Bool.false_eq_true,
        List.append_eq]
      rw [ih hcs' rest (c :: acc)]
      simp [List.append_assoc]

/-- Splitting is a left inverse of joining nonempty whitespace-free words
with single spaces. -/
theorem wordsAux_joinWordsCh :
    ∀ ws : List (List Char),
      (∀ w ∈ ws, w ≠ [] ∧ ∀ c ∈ w, ¬ c.isWhitespace) →
      wordsAux (joinWordsCh ws) [] = ws := by
  intro ws
  induction ws with
  | nil => intro _; rfl
  | cons w rest ih =>
      intro h
      have hw := h w (List.mem_cons_self w rest)
      cases rest with
      | nil =>
          show wordsAux (joinWordsCh [w]) [] = [w]
          have hjoin : joinWordsCh [w] = w := rfl
          rw [hjoin, show w = w ++ [] from (List.append_nil w).symm,
            wordsAux_append_word w hw.2 [] []]
          have hne : (w ++ []).reverse ++ [] ≠ [] := by simp [hw.1]
          simp only [wordsAux, List.append_nil]
          rw [if_neg (by simpa [List.isEmpty_iff] using hw.1)]
          simp
      | cons w2 rest2 =>
          have hjoin : joinWordsCh (w :: w2 :: rest2) = w ++ ' ' :: joinWordsCh (w2 :: rest2) := rfl
          rw [hjoin, wordsAux_append_word w hw.2 _ []]
          have hsp : (' ' : Char).isWhitespace = true := by decide
          simp only [wordsAux, hsp, if_true]
          rw [if_neg (by simpa [List.isEmpty_iff] using hw.1)]
          rw [ih (fun x hx => h x (List.mem_cons_of_mem w hx))]
          simp

theorem pySplit_text600 : pySplit text600 = List.replicate 600 "w" := by
  unfold pySplit text600
  have hok : ∀ w ∈ List.replicate 600 ['w'], w ≠ [] ∧ ∀ c ∈ w, ¬ c.isWhitespace := by
    intro w hw
    rw [List.eq_of_mem_replicate hw]
    refine ⟨by simp, ?_⟩
    intro c hc
    simp only [List.mem_singleton] at hc
    rw [hc]
    decide
  rw [show (String.mk (joinWordsCh (List.replicate 600 ['w']))).data
        = joinWordsCh (List.replicate 600 ['w']) from rfl]
  rw [wordsAux_joinWordsCh _ hok]
  rw [List.map_replicate]

/-- C5: with `overlap < max_tokens`, a text of at most `max_tokens` words is
returned as the single unchanged chunk; a longer text is chunked into one
window of `max_tokens` words per start offset `0, s, 2s, …` below the word
count, with step `s = max_tokens - overlap`; a 600-word text with
`max_tokens = 200, overlap = 50` yields exactly 4 chunks whose windows start
at word offsets 0, 150, 300, 450 and have 200, 200, 200 and 150 words. -/
theorem chunk_text_window_characterization :
    (∀ (text : String) (maxT ov : Nat), ov < maxT → (pySplit text).length ≤ maxT →
        chunk_text text maxT ov = some [text])
    ∧ (∀ (text : String) (maxT ov : Nat), ov < maxT → maxT < (pySplit text).length →
        chunk_text text maxT ov = some (specChunks (pySplit text) maxT (maxT - ov)))
    ∧ (∀ text : String, pySplit text = List.replicate 600 "w" →
        (chunk_text text 200 50).map List.length = some 4)
    ∧ (specWindows (List.replicate 600 "w") 200 150).map List.length
        = [200, 200, 200, 150]
    ∧ (List.range (specNumChunks 600 150)).map (· * 150) = [0, 150, 300, 450] := by
  have main : ∀ (text : String) (maxT ov : Nat), ov < maxT →
      maxT < (pySplit text).length →
      chunk_text text maxT ov = some (specChunks (pySplit text) maxT (maxT - ov)) := by
    intro text maxT ov hov hlen
    unfold chunk_text
    rw [if_neg (by omega)]
    have hs : 1 ≤ maxT - ov := by omega
    have hcast : (maxT : Int) - (ov : Int) = ((maxT - ov : Nat) : Int) := by omega
    have hspec := chunkLoop_spec (pySplit text) maxT (maxT - ov) hs
      (pySplit text).length 0 (by omega)
    rw [Nat.cast_zero] at hspec
    rw [hcast, hspec]
    simp [specChunks, specWindows, List.map_map, Function.comp]
  refine ⟨?_, main, ?_, ?_, ?_⟩
  · intro text maxT ov _ hle
    unfold chunk_text
    rw [if_pos hle]
  · intro text h600
    have hm := main text 200 50 (by omega) (by rw [h600]; simp)
    rw [hm, h600]
    rw [Option.map_some']
    simp only [specChunks, specWindows, List.length_map, List.length_range,
      List.length_replicate]
    norm_num [specNumChunks]
  · have h4 : specNumChunks 600 150 = 4 := by norm_num [specNumChunks]
    simp only [specWindows, List.length_replicate, h4]
    simp only [List.range_succ, List.range_zero, List.map_append, List.map_cons,
      List.map_nil, List.nil_append, List.cons_append, List.drop_replicate,
      List.take_replicate, List.length_replicate]
    norm_num
  · have h4 : specNumChunks 600 150 = 4 := by norm_num [specNumChunks]
    rw [h4]
    decide

/-- Witness for C5 at concrete inputs (a 2-word text below the budget, a
3-word text above it, and the 600-word scenario text). -/
theorem chunk_text_window_characterization_witness :
    chunk_text "a b" 5 1 = some ["a b"]
    ∧ chunk_text "a b c" 2 1 = some (specChunks (pySplit "a b c") 2 1)
    ∧ (chunk_text text600 200 50).map List.length = some 4 := by
  refine ⟨chunk_text_window_characterization.1 "a b" 5 1 (by decide) (by decide),
    ?_, ?_⟩
  · exact chunk_text_window_characterization.2.1 "a b c" 2 1 (by decide) (by decide)
  · exact chunk_text_window_characterization.2.2.1 text600 pySplit_text600

/-- C6 amended: `chunk_text` terminates whenever `overlap < max_tokens` (the
only configuration its callers use), but the implementation neither enforces
nor clamps this: with `overlap ≥ max_tokens` and a text of more than
`max_tokens` words the loop advance is nonpositive and the loop diverges
(returns `none` at every fuel). -/
theorem chunk_text_termination :
    (∀ (text : String) (maxT ov : Nat), ov < maxT → (chunk_text text maxT ov).isSome)
    ∧ (∀ (text : String) (maxT ov : Nat), maxT ≤ ov → maxT < (pySplit text).length →
        ∀ fuel : Nat,
          chunkLoop (pySplit text) maxT ((maxT : Int) - (ov : Int)) fuel 0 = none) := by
  constructor
  · intro text maxT ov hov
    unfold chunk_text
    by_cases h : (pySplit text).length ≤ maxT
    · simp [h]
    · rw [if_neg h]
      have hs : 1 ≤ maxT - ov := by omega
      have hcast : (maxT : Int) - (ov : Int) = ((maxT - ov : Nat) : Int) := by omega
      have hspec := chunkLoop_spec (pySplit text) maxT (maxT - ov) hs
        (pySplit text).length 0 (by omega)
      rw [Nat.cast_zero] at hspec
      rw [hcast, hspec]
      rfl
  · intro text maxT ov hov hlen fuel
    exact chunkLoop_none_of_step_nonpos (pySplit text) maxT _
      (by omega) (by omega) fuel 0 le_rfl

/-- Witness for C6 at concrete inputs: the default configuration terminates,
and `overlap = max_tokens` on a 3-word text diverges at every fuel. -/
theorem chunk_text_termination_witness :
    (chunk_text "a b c" 2 1).isSome
    ∧ chunkLoop (pySplit "a b c") 2 ((2 : Int) - (2 : Int)) 5 0 = none :=
  ⟨chunk_text_termination.1 "a b c" 2 1 (by decide),
   chunk_text_termination.2 "a b c" 2 2 (by decide) (by decide) 5⟩

/-- Counterexample to C6 as stated: the implementation does not clamp
`overlap`; at `max_tokens = 2, overlap = 2` on a 3-word text the loop never
finishes (the canonical fuel — which suffices for every positive step — is
exhausted). -/
theorem chunk_text_no_clamp_counterexample :
    chunk_text "a b c" 2 2 = none := by decide

end SmartEmr

namespace SmartEmr

/-! ### Retrieval index (`backend/rag_prototype.py`, `RAGIndex.query`,
lines 136-174)

Query-time state after `load()`: the chunk metadata list and one of the two
search backends.  The embedding model and the numeric search structures are
external collaborators; they enter the model as oracles:
`knnOut n` stands for `zip(labels, distances)` of `self.index.knn_query(q, n)`
on the hnswlib path, and `simF i` stands for the cosine similarity of the
query embedding with saved embedding `i` on the brute-force path. -/

structure ChunkMeta where
  note_id : Int
  patient_id : Int
  text_snippet : String
  note_date : String
  deriving DecidableEq, Inhabited, Repr

/-- Model of `[i for i, m in enumerate(self.meta) if (patient_id is None or
m.get("patient_id") == patient_id)]` (line 146). -/
def candidateIndices (meta : List ChunkMeta) (pid : Option Int) : List Nat :=
  (List.range meta.length).filter (fun i =>
    match pid with
    | none => true
    | some p => decide ((meta.getD i default).patient_id = p))

/-- The result-collection loop of the hnswlib path (lines 155-161): walk the
returned labels, keep those whose index passes the patient filter, convert
distance to similarity, and stop as soon as `k` results are collected. -/
def annLoop (cand : List Nat) (meta : List ChunkMeta) (k : Nat) :
    List (Nat × Int) → List (Int × ChunkMeta) → List (Int × ChunkMeta)
  | [], acc => acc
  | (lbl, dist) :: rest, acc =>
    if lbl ∈ cand then
      let acc' := acc ++ [(1 - dist, meta.getD lbl default)]
      if k ≤ acc'.length then acc' else annLoop cand meta k rest acc'
    else annLoop cand meta k rest acc

/-- The two query backends of `RAGIndex` (line 150's branch): the hnswlib
index, or brute-force search over embeddings saved on disk (`hasEmb` models
`os.path.exists(emb_path)`). -/
inductive RagBackend where
  | ann (knnOut : Nat → List (Nat × Int))
  | brute (hasEmb : Bool) (simF : Nat → Int)

/-- Model of `RAGIndex.query(patient_id, q, k)` after `load()` (lines 136-174). -/
def ragQuery (meta : List ChunkMeta) (backend : RagBackend) (pid : Option Int)
    (k : Nat) : List (Int × ChunkMeta) :=
  if meta.isEmpty then []
  else
    let cand := candidateIndices meta pid
    if cand.isEmpty then []
    else
      match backend with
      | .ann knnOut => annLoop cand meta k (knnOut (min (k * 3) meta.length)) []
      | .brute hasEmb simF =>
          if hasEmb then
            ((cand.map (fun i => (simF i, meta.getD i default))).mergeSort
              (fun a b => decide (b.1 ≤ a.1))).take k
          else []

theorem mem_candidateIndices {meta : List ChunkMeta} {A : Int} {i : Nat}
    (h : i ∈ candidateIndices meta (some A)) :
    i < meta.length ∧ (meta.getD i default).patient_id = A := by
  unfold candidateIndices at h
  rw [List.mem_filter, List.mem_range] at h
  refine ⟨h.1, ?_⟩
  have := h.2
  simpa using this

theorem annLoop_patient {cand : List Nat} {meta : List ChunkMeta} {A : Int}
    (hcand : ∀ i ∈ cand, (meta.getD i default).patient_id = A) (k : Nat) :
    ∀ (pairs : List (Nat × Int)) (acc : List (Int × ChunkMeta)),
      (∀ hit ∈ acc, hit.2.patient_id = A) →
      ∀ hit ∈ annLoop cand meta k pairs acc, hit.2.patient_id = A := by
  intro pairs
  induction pairs with
  | nil => intro acc hacc hit hmem; exact hacc hit hmem
  | cons p rest ih =>
      intro acc hacc hit hmem
      obtain ⟨lbl, dist⟩ := p
      by_cases hlbl : lbl ∈ cand
      · have hacc' : ∀ h ∈ acc ++ [(1 - dist, meta.getD lbl default)],
            h.2.patient_id = A := by
          intro h hm
          rcases List.mem_append.mp hm with hm | hm
          · exact hacc h hm
          · rw [List.mem_singleton] at hm
            rw [hm]
            exact hcand lbl hlbl
        rw [annLoop, if_pos hlbl] at hmem
        by_cases hk : k ≤ (acc ++ [(1 - dist, meta.getD lbl default)]).length
        · rw [if_pos hk] at hmem
          exact hacc' hit hmem
        · rw [if_neg hk] at hmem
          exact ih _ hacc' hit hmem
      · rw [annLoop, if_neg hlbl] at hmem
        exact ih acc hacc hit hmem

theorem annLoop_length {cand : List Nat} {meta : List ChunkMeta} {k : Nat} :
    ∀ (pairs : List (Nat × Int)) (acc : List (Int × ChunkMeta)),
      acc.length < k → (annLoop cand meta k pairs acc).length ≤ k := by
  intro pairs
  induction pairs with
  | nil => intro acc hlt; exact le_of_lt hlt
  | cons p rest ih =>
      intro acc hlt
      obtain ⟨lbl, dist⟩ := p
      by_cases hlbl : lbl ∈ cand
      · rw [annLoop, if_pos hlbl]
        by_cases hk : k ≤ (acc ++ [(1 - dist, meta.getD lbl default)]).length
        · rw [if_pos hk]
          simp only [List.length_append, List.length_singleton]
          omega
        · rw [if_neg hk]
          refine ih _ ?_
          simp only [List.length_append, List.length_singleton] at hk ⊢
          omega
      · rw [annLoop, if_neg hlbl]
        exact ih acc hlt

end SmartEmr

namespace SmartEmr

/-- C1: every hit returned by `RAGIndex.query(A, q, k)` for a concrete (non-
`None`) patient id `A` carries chunk metadata with `patient_id = A` — on the
hnswlib path for arbitrary labels returned by the index, and on the
brute-force path — so retrieval for `A` never surfaces another patient's
chunk. -/
theorem ragQuery_patient_scoped (meta : List ChunkMeta) (backend : RagBackend)
    (A : Int) (k : Nat) :
    ∀ hit ∈ ragQuery meta backend (some A) k, hit.2.patient_id = A := by
  intro hit hmem
  unfold ragQuery at hmem
  by_cases hempty : meta.isEmpty
  · rw [if_pos hempty] at hmem
    exact absurd hmem (List.not_mem_nil hit)
  · rw [if_neg hempty] at hmem
    by_cases hcand : (candidateIndices meta (some A)).isEmpty
    · rw [if_pos hcand] at hmem
      exact absurd hmem (List.not_mem_nil hit)
    · rw [if_neg hcand] at hmem
      have hscope : ∀ i ∈ candidateIndices meta (some A),
          (meta.getD i default).patient_id = A :=
        fun i hi => (mem_candidateIndices hi).2
      cases backend with
      | ann knnOut =>
          exact annLoop_patient hscope k _ [] (by intro h hm; cases hm) hit hmem
      | brute hasEmb simF =>
          dsimp only at hmem
          by_cases hemb : hasEmb
          · rw [if_pos hemb] at hmem
            have h1 := List.mem_of_mem_take hmem
            rw [List.mem_mergeSort] at h1
            obtain ⟨i, hi, hEq⟩ := List.mem_map.mp h1
            rw [← hEq]
            exact hscope i hi
          · rw [if_neg hemb] at hmem
            exact absurd hmem (List.not_mem_nil hit)

/-- Concrete single-chunk index used to witness C1 and C9. -/
def metaW : List ChunkMeta := [⟨1, 5, "snippet", "2024-01-01"⟩]

/-- Oracle for `metaW`'s hnswlib index: label 0 at distance 0. -/
def knnW : Nat → List (Nat × Int) := fun _ => [(0, 0)]

/-- Witness for C1: on a concrete index the one returned hit belongs to the
queried patient 5. -/
theorem ragQuery_patient_scoped_witness :
    ((1 : Int), (⟨1, 5, "snippet", "2024-01-01"⟩ : ChunkMeta)).2.patient_id = 5 :=
  ragQuery_patient_scoped metaW (.ann knnW) 5 1
    ((1 : Int), (⟨1, 5, "snippet", "2024-01-01"⟩ : ChunkMeta))
    (by
      have h : ragQuery metaW (.ann knnW) (some 5) 1
          = [((1 : Int), (⟨1, 5, "snippet", "2024-01-01"⟩ : ChunkMeta))] := by rfl
      rw [h]
      exact List.mem_singleton_self _)

/-- C9 amended: the approximate path issues a single knn request for
`min(k*3, len(meta))` candidates and filters it to the target patient,
stopping at `k` hits — so (for `k ≥ 1`) it returns at most `k` hits — but it
never re-queries with a larger multiplier, and may return fewer than `k` hits
even when the patient owns at least `k` chunks of the shared index (see the
counterexample below). -/
theorem ann_overfetch_at_most_k (meta : List ChunkMeta)
    (knnOut : Nat → List (Nat × Int)) (A : Int) (k : Nat) (hk : 1 ≤ k) :
    (ragQuery meta (.ann knnOut) (some A) k).length ≤ k := by
  unfold ragQuery
  by_cases hempty : meta.isEmpty
  · rw [if_pos hempty]; simp
  · rw [if_neg hempty]
    by_cases hcand : (candidateIndices meta (some A)).isEmpty
    · rw [if_pos hcand]; simp
    · rw [if_neg hcand]
      exact annLoop_length _ [] (by simpa using hk)

/-- Witness for C9's amended bound at a concrete index. -/
theorem ann_overfetch_at_most_k_witness :
    (ragQuery metaW (.ann knnW) (some 5) 1).length ≤ 1 :=
  ann_overfetch_at_most_k metaW knnW 5 1 (by decide)

/-- Shared 4-chunk index for the C9 counterexample: chunks 0-2 belong to
patient 2 and rank above patient 1's single chunk 3. -/
def metaU : List ChunkMeta :=
  [⟨1, 2, "a", "d"⟩, ⟨2, 2, "b", "d"⟩, ⟨3, 2, "c", "d"⟩, ⟨4, 1, "e", "d"⟩]

/-- Oracle for `metaU`'s hnswlib index: nearest labels in order 0, 1, 2, …. -/
def knnU : Nat → List (Nat × Int) := fun n => (List.range n).map (fun i => (i, 0))

/-- Counterexample to C9 as stated: patient 1 owns one chunk (≥ k = 1), yet
the approximate path fetches only `min(3·1, 4) = 3` candidates — all patient
2's — filters them away, performs no re-query, and returns no hits. -/
theorem ann_underflow_counterexample :
    (metaU.filter (fun m => decide (m.patient_id = 1))).length = 1
    ∧ ragQuery metaU (.ann knnU) (some 1) 1 = [] := by decide

end SmartEmr

namespace SmartEmr

/-! ### Summary cache and the two summarize endpoints

`SummaryCache` rows (`app/models.py`, lines 45-51) keyed by patient, with the
provider tag and the serialized summary payload.  Rows are kept in insertion
order; the `ORDER BY updated_at DESC ... first()` read is modelled as the
last inserted row for the patient (`updated_at` defaults to the insertion
time). -/

structure CacheRow where
  patient_id : Int
  source : String
  summary_json : String
  deriving DecidableEq, Inhabited, Repr

/-- The live cache rows for one patient. -/
def rowsFor (cache : List CacheRow) (pid : Int) : List CacheRow :=
  cache.filter (fun r => decide (r.patient_id = pid))

/-- The cache-write step of `app/api/summarize.py::summarize`
(lines 120-133): delete every row of the patient, then insert the one new
row, in a single commit. -/
def apiPutCache (cache : List CacheRow) (pid : Int) (provider payload : String) :
    List CacheRow :=
  (cache.filter (fun r => decide (r.patient_id ≠ pid))) ++ [⟨pid, provider, payload⟩]

/-- The cache-write step of `app.py::summarize` (lines 338-344, 357-363 and
376-382): it only inserts the new row — no prior row is deleted. -/
def appPutCache (cache : List CacheRow) (pid : Int) (provider payload : String) :
    List CacheRow :=
  cache ++ [⟨pid, provider, payload⟩]

/-- Responses of `app.py::summarize`: a cache hit, a provider summary (the
payload string stands for the provider's JSON dict, serialized), or the
deterministic fallback built from the retrieval hits (lines 393-402). -/
inductive SummarizeResp where
  | cached (payload : String)
  | provided (payload : String)
  | fallback (one_line : String) (bullets : List String)
      (sources : List (Int × Int × Int))
  deriving DecidableEq, Repr

/-- The fallback summary of `app.py::summarize` (lines 393-402): one bullet
per hit (`text_snippet[:200]`), sources as `(note_id, patient_id, score)`,
and `one_line = bullets[0][:140] + "..."` when any hit exists. -/
def appFallback (hits : List (Int × ChunkMeta)) : SummarizeResp :=
  let bullets := hits.map (fun h => String.mk (h.2.text_snippet.data.take 200))
  let sources := hits.map (fun h => (h.2.note_id, h.2.patient_id, h.1))
  let one_line :=
    match bullets with
    | [] => "No notes available"
    | b :: _ => String.mk (b.data.take 140) ++ "..."
  SummarizeResp.fallback one_line bullets sources

/-- The provider cascade and cache interaction of `app.py::summarize`
(lines 287-402), after the retrieval hits are in hand.  Oracles:
`parseOk payload` models whether `json.loads(payload)` succeeds on a cached
row; `orImport` models whether `openrouter_wrapper` imports (its failure
skips straight to the fallback, lines 389-391); `orGen`, `gemGen`, `cohGen`
are `some payload` when the given provider call returns the serialized
summary `payload`, and `none` when it raises. -/
def appSummarizeGen (pid : Int) (cache : List CacheRow)
    (hits : List (Int × ChunkMeta)) (orImport : Bool) (orGen gemGen cohGen : Option String) :
    SummarizeResp × List CacheRow :=
  if orImport then
    match orGen with
    | some s => (.provided s, appPutCache cache pid "openrouter" s)
    | none =>
        match gemGen with
        | some s => (.provided s, appPutCache cache pid "gemini" s)
        | none =>
            match cohGen with
            | some s => (.provided s, appPutCache cache pid "cohere" s)
            | none => (appFallback hits, cache)
  else (appFallback hits, cache)

/-- Model of `app.py::summarize` including its cache pre-check (lines 298-313): a
parseable cached row is returned as-is; a malformed one falls through to
generation. -/
def appSummarize (parseOk : String → Bool) (pid : Int) (cache : List CacheRow)
    (hits : List (Int × ChunkMeta)) (orImport : Bool) (orGen gemGen cohGen : Option String) :
    SummarizeResp × List CacheRow :=
  match (rowsFor cache pid).getLast? with
  | some row =>
      if parseOk row.summary_json then (.cached row.summary_json, cache)
      else appSummarizeGen pid cache hits orImport orGen gemGen cohGen
  | none => appSummarizeGen pid cache hits orImport orGen gemGen cohGen

end SmartEmr

namespace SmartEmr

theorem rowsFor_filter_ne (cache : List CacheRow) (pid : Int) :
    rowsFor (cache.filter (fun r => decide (r.patient_id ≠ pid))) pid = [] := by
  induction cache with
  | nil => rfl
  | cons r rest ih =>
      by_cases h : r.patient_id = pid
      · simp [rowsFor, List.filter, h, ih]
      · simp [rowsFor, List.filter, h, ih]

/-- C2 amended: the put step of `app/api/summarize.py::summarize` deletes all
rows of the patient and inserts exactly one new row as one commit — afterwards
exactly one live row exists for that patient and other patients' rows are
untouched; the put step of `app.py::summarize`, by contrast, only inserts,
leaving prior rows for the same patient live (merely shadowed by the
newest-first read — see the counterexample). -/
theorem apiPutCache_single_row (cache : List CacheRow) (pid : Int)
    (provider payload : String) :
    rowsFor (apiPutCache cache pid provider payload) pid = [⟨pid, provider, payload⟩]
    ∧ ∀ q : Int, q ≠ pid →
        rowsFor (apiPutCache cache pid provider payload) q = rowsFor cache q := by
  constructor
  · unfold rowsFor apiPutCache
    rw [List.filter_append]
    have h1 := rowsFor_filter_ne cache pid
    unfold rowsFor at h1
    rw [h1]
    simp
  · intro q hq
    unfold rowsFor apiPutCache
    rw [List.filter_append]
    have h2 : (cache.filter (fun r => decide (r.patient_id ≠ pid))).filter
        (fun r => decide (r.patient_id = q)) = cache.filter (fun r => decide (r.patient_id = q)) := by
      rw [List.filter_filter]
      refine List.filter_congr ?_
      intro r _
      by_cases h : r.patient_id = q
      · have hne : r.patient_id ≠ pid := by rw [h]; exact hq
        simp only [h, hne, decide_not]
        simp [hq]
      · simp [h]
    rw [h2]
    have h3 : ([(⟨pid, provider, payload⟩ : CacheRow)].filter
        (fun r => decide (r.patient_id = q))) = [] := by
      simp [List.filter, Ne.symm hq]
    rw [h3, List.append_nil]

/-- Witness for C2's amended theorem at a concrete two-patient cache. -/
theorem apiPutCache_single_row_witness :
    rowsFor (apiPutCache [⟨7, "a", "x"⟩, ⟨8, "b", "y"⟩] 7 "openrouter" "z") 7
      = [⟨7, "openrouter", "z"⟩]
    ∧ rowsFor (apiPutCache [⟨7, "a", "x"⟩, ⟨8, "b", "y"⟩] 7 "openrouter" "z") 8
      = rowsFor [⟨7, "a", "x"⟩, ⟨8, "b", "y"⟩] 8 :=
  ⟨(apiPutCache_single_row [⟨7, "a", "x"⟩, ⟨8, "b", "y"⟩] 7 "openrouter" "z").1,
   (apiPutCache_single_row [⟨7, "a", "x"⟩, ⟨8, "b", "y"⟩] 7 "openrouter" "z").2 8 (by decide)⟩

/-- Counterexample to C2 as stated: a completed put of `app.py::summarize`
(reached because the existing cached row is malformed JSON) leaves two live
rows for patient 7 — the stale row is shadowed, not removed. -/
theorem summarize_put_leaves_two_rows_counterexample :
    (appSummarize (fun s => decide (s ≠ "bad")) 7 [⟨7, "openrouter", "bad"⟩] []
        true (some "good") none none).2
      = [⟨7, "openrouter", "bad"⟩, ⟨7, "openrouter", "good"⟩]
    ∧ (rowsFor [⟨7, "openrouter", "bad"⟩, ⟨7, "openrouter", "good"⟩] 7).length = 2 := by
  decide

/-- C4 amended: when the `openrouter` wrapper fails to import, or imports but
every provider call (openrouter, gemini, cohere) raises, `app.py::summarize`
returns the deterministic fallback built from the retrieval hits — a total
function of the hits, so this path cannot raise — but the fallback is NOT
persisted: the cache is left exactly as it was, and in particular no row with
`source = "fallback"` is written. -/
theorem appSummarize_all_providers_fail (parseOk : String → Bool) (pid : Int)
    (cache : List CacheRow) (hits : List (Int × ChunkMeta)) (orImport : Bool)
    (hmiss : ∀ row, (rowsFor cache pid).getLast? = some row →
      parseOk row.summary_json = false) :
    appSummarize parseOk pid cache hits orImport none none none = (appFallback hits, cache)
    ∧ ((appSummarize parseOk pid cache hits orImport none none none).2.filter
        (fun r => decide (r.source = "fallback")))
      = cache.filter (fun r => decide (r.source = "fallback")) := by
  have hgen : appSummarizeGen pid cache hits orImport none none none
      = (appFallback hits, cache) := by
    unfold appSummarizeGen
    by_cases h : orImport
    · rw [if_pos h]
    · rw [if_neg h]
  have hmain : appSummarize parseOk pid cache hits orImport none none none
      = (appFallback hits, cache) := by
    unfold appSummarize
    cases hlast : (rowsFor cache pid).getLast? with
    | none => exact hgen
    | some row =>
        have hp := hmiss row hlast
        dsimp only
        rw [hp]
        simpa using hgen
  exact ⟨hmain, by rw [hmain]⟩

/-- Witness for C4's amended theorem: empty cache, one hit, all providers
failing. -/
theorem appSummarize_all_providers_fail_witness :
    appSummarize (fun _ => true) 7 [] [(1, ⟨3, 7, "note text", "d"⟩)] true none none none
      = (appFallback [(1, ⟨3, 7, "note text", "d"⟩)], [])
    ∧ ((appSummarize (fun _ => true) 7 [] [(1, ⟨3, 7, "note text", "d"⟩)] true
          none none none).2.filter (fun r => decide (r.source = "fallback")))
      = List.filter (fun r => decide (r.source = "fallback")) [] :=
  appSummarize_all_providers_fail (fun _ => true) 7 [] [(1, ⟨3, 7, "note text", "d"⟩)]
    true (by intro row h; simp [rowsFor] at h)

/-- Counterexample to C4 as stated: with every provider failing, the returned
summary is the deterministic fallback built from the single hit, but the
cache stays empty — nothing is stored under `source_provider = "fallback"`. -/
theorem fallback_not_cached_counterexample :
    appSummarize (fun _ => true) 7 [] [(1, ⟨3, 7, "note text", "d"⟩)] true none none none
      = (.fallback "note text..." ["note text"] [(3, 7, 1)], []) := by
  decide

end SmartEmr

namespace SmartEmr

/-! ### Note endpoints and cache invalidation

Two parallel note-management surfaces exist: the standalone `app.py`
endpoints (`add_note`, lines 212-235; `delete_note`, lines 271-285), which
delete the patient's `SummaryCache` rows after the mutation, and the
`app/api/notes.py` router (`create_note`, lines 43-58; `update_note`, lines
63-75; `delete_note`, lines 77-88), which never touches `SummaryCache`. -/

structure NoteRec where
  id : Int
  patient_id : Int
  text : String
  deriving DecidableEq, Inhabited, Repr

structure EmrState where
  patients : List Int
  notes : List NoteRec
  cache : List CacheRow
  deriving DecidableEq, Repr

/-- Model of `app.py::add_note` (lines 212-235): 404 when the patient is missing,
otherwise insert the note and delete the patient's cache rows. -/
def appAddNote (st : EmrState) (pid : Int) (newId : Int) (text : String) :
    Except Nat (NoteRec × EmrState) :=
  if pid ∈ st.patients then
    let n : NoteRec := ⟨newId, pid, text⟩
    .ok (n, { st with
      notes := st.notes ++ [n],
      cache := st.cache.filter (fun r => decide (r.patient_id ≠ pid)) })
  else .error 404

/-- Model of `app.py::delete_note` (lines 271-285): 404 when the note is missing,
otherwise delete it and the owning patient's cache rows. -/
def appDeleteNote (st : EmrState) (noteId : Int) : Except Nat EmrState :=
  match st.notes.find? (fun n => decide (n.id = noteId)) with
  | none => .error 404
  | some n =>
      .ok { st with
        notes := st.notes.filter (fun m => decide (m.id ≠ noteId)),
        cache := st.cache.filter (fun r => decide (r.patient_id ≠ n.patient_id)) }

/-- Model of `app/api/notes.py::create_note` (lines 43-58): inserts the note; the
cache is not touched. -/
def apiCreateNote (st : EmrState) (pid : Int) (newId : Int) (text : String) :
    Except Nat (NoteRec × EmrState) :=
  if pid ∈ st.patients then
    let n : NoteRec := ⟨newId, pid, text⟩
    .ok (n, { st with notes := st.notes ++ [n] })
  else .error 404

/-- Model of `app/api/notes.py::update_note` (lines 63-75): rewrites the note's text;
the cache is not touched. -/
def apiUpdateNote (st : EmrState) (noteId : Int) (newText : String) :
    Except Nat EmrState :=
  if st.notes.any (fun n => decide (n.id = noteId)) then
    .ok { st with notes :=
      (st.notes.map (fun n => if n.id = noteId then { n with text := newText } else n)) }
  else .error 404

/-- Model of `app/api/notes.py::delete_note` (lines 77-88): removes the note; the
cache is not touched. -/
def apiDeleteNote (st : EmrState) (noteId : Int) : Except Nat EmrState :=
  if st.notes.any (fun n => decide (n.id = noteId)) then
    .ok { st with notes := st.notes.filter (fun n => decide (n.id ≠ noteId)) }
  else .error 404

/-- C3 amended: the `app.py` note mutations (`add_note`, `delete_note`) do
delete every `SummaryCache` row of the affected patient, so a subsequent
cache read finds nothing; but the `app/api/notes.py` router's `create_note`,
`update_note` and `delete_note` leave the cache exactly unchanged — a
pre-mutation entry remains live after the mutation (see the counterexample). -/
theorem note_mutation_cache_invalidation :
    (∀ (st : EmrState) (pid newId : Int) (text : String) (n : NoteRec) (st' : EmrState),
        appAddNote st pid newId text = .ok (n, st') → rowsFor st'.cache pid = [])
    ∧ (∀ (st : EmrState) (noteId : Int) (n : NoteRec) (st' : EmrState),
        st.notes.find? (fun m => decide (m.id = noteId)) = some n →
        appDeleteNote st noteId = .ok st' → rowsFor st'.cache n.patient_id = [])
    ∧ (∀ (st : EmrState) (pid newId : Int) (text : String) (n : NoteRec) (st' : EmrState),
        apiCreateNote st pid newId text = .ok (n, st') → st'.cache = st.cache)
    ∧ (∀ (st : EmrState) (noteId : Int) (newText : String) (st' : EmrState),
        apiUpdateNote st noteId newText = .ok st' → st'.cache = st.cache)
    ∧ (∀ (st : EmrState) (noteId : Int) (st' : EmrState),
        apiDeleteNote st noteId = .ok st' → st'.cache = st.cache) := by
  refine ⟨?_, ?_, ?_, ?_, ?_⟩
  · intro st pid newId text n st' h
    unfold appAddNote at h
    by_cases hp : pid ∈ st.patients
    · rw [if_pos hp] at h
      simp only [Except.ok.injEq, Prod.mk.injEq] at h
      rw [← h.2]
      exact rowsFor_filter_ne st.cache pid
    · rw [if_neg hp] at h
      exact absurd h (by simp)
  · intro st noteId n st' hfind h
    unfold appDeleteNote at h
    rw [hfind] at h
    simp only [Except.ok.injEq] at h
    rw [← h]
    exact rowsFor_filter_ne st.cache n.patient_id
  · intro st pid newId text n st' h
    unfold apiCreateNote at h
    by_cases hp : pid ∈ st.patients
    · rw [if_pos hp] at h
      simp only [Except.ok.injEq, Prod.mk.injEq] at h
      rw [← h.2]
    · rw [if_neg hp] at h
      exact absurd h (by simp)
  · intro st noteId newText st' h
    unfold apiUpdateNote at h
    by_cases hp : st.notes.any (fun n => decide (n.id = noteId))
    · rw [if_pos hp] at h
      simp only [Except.ok.injEq] at h
      rw [← h]
    · rw [if_neg hp] at h
      exact absurd h (by simp)
  · intro st noteId st' h
    unfold apiDeleteNote at h
    by_cases hp : st.notes.any (fun n => decide (n.id = noteId))
    · rw [if_pos hp] at h
      simp only [Except.ok.injEq] at h
      rw [← h]
    · rw [if_neg hp] at h
      exact absurd h (by simp)

/-- Witness for C3's amended theorem: `app.py::add_note` clears patient 7's
stale cache row, and `app/api/notes.py::create_note` keeps it. -/
theorem note_mutation_cache_invalidation_witness :
    rowsFor ((⟨[7], [⟨1, 7, "t"⟩],
        List.filter (fun r => decide (r.patient_id ≠ 7)) [⟨7, "openrouter", "x"⟩]⟩ :
          EmrState)).cache 7 = []
    ∧ ((⟨[7], [⟨1, 7, "t"⟩], [⟨7, "openrouter", "x"⟩]⟩ : EmrState)).cache
        = ((⟨[7], [], [⟨7, "openrouter", "x"⟩]⟩ : EmrState)).cache :=
  ⟨note_mutation_cache_invalidation.1 ⟨[7], [], [⟨7, "openrouter", "x"⟩]⟩ 7 1 "t"
      ⟨1, 7, "t"⟩ _ (by rfl),
   note_mutation_cache_invalidation.2.2.1 ⟨[7], [], [⟨7, "openrouter", "x"⟩]⟩ 7 1 "t"
      ⟨1, 7, "t"⟩ _ (by rfl)⟩

/-- Counterexample to C3 as stated: a note creation through the
`app/api/notes.py` router leaves patient 7's pre-mutation cache row live, so
an immediate cache read still finds the stale entry. -/
theorem create_note_no_invalidation_counterexample :
    apiCreateNote ⟨[7], [], [⟨7, "openrouter", "x"⟩]⟩ 7 1 "new note"
      = .ok (⟨1, 7, "new note"⟩, ⟨[7], [⟨1, 7, "new note"⟩], [⟨7, "openrouter", "x"⟩]⟩)
    ∧ rowsFor [⟨7, "openrouter", "x"⟩] 7 = [⟨7, "openrouter", "x"⟩] :=
  ⟨rfl, by decide⟩

end SmartEmr

namespace SmartEmr

/-! ### Response validation (`openrouter_wrapper.py` lines 94-109,
`cohere_wrapper.py` lines 277-305, `hf_wrapper.py` lines 97-150)

JSON values are a small AST; `parse` is an oracle for `json.loads`
(`none` = raises) and `dumps` an oracle for `json.dumps`. -/

inductive JVal where
  | jstr (s : String)
  | jnum (n : Int)
  | jbool (b : Bool)
  | jnull
  | jarr (items : List JVal)
  | jobj (fields : List (String × JVal))
  deriving Inhabited, Repr

/-- Key lookup on a parsed JSON object (`parsed[k]` / `k in parsed`). -/
def JVal.lookup : JVal → String → Option JVal
  | .jobj fs, k => fs.lookup k
  | _, _ => none

/-- Model of `isinstance(parsed, dict) and k in parsed`. -/
def JVal.hasKey (v : JVal) (k : String) : Bool :=
  (v.lookup k).isSome

def JVal.isObj : JVal → Bool
  | .jobj _ => true
  | _ => false

/-- Python `text.find(c)`: index of the first occurrence, `-1` if absent. -/
def pyFind (s : String) (c : Char) : Int :=
  match s.data.findIdx? (· == c) with
  | some i => (i : Int)
  | none => -1

/-- Python `text.rfind(c)`: index of the last occurrence, `-1` if absent. -/
def pyRFind (s : String) (c : Char) : Int :=
  match s.data.reverse.findIdx? (· == c) with
  | some i => ((s.data.length - 1 - i : Nat) : Int)
  | none => -1

inductive VErr where
  | parseFail
  | missingKeys
  | typeErr
  deriving DecidableEq, Repr

/-- The shared parse order of the openrouter and cohere validators: try a
direct `json.loads` of the full text; on failure locate the first `{` and the
last `}` and parse that slice; if no such slice exists or that parse also
fails, fail. -/
def extractJson (parse : String → Option JVal) (text : String) : Option JVal :=
  match parse text with
  | some v => some v
  | none =>
      let s := pyFind text '{'
      let e := pyRFind text '}'
      if s ≠ -1 ∧ e ≠ -1 ∧ s < e then
        parse (String.mk (pySlice text.data s (e + 1)))
      else none

/-- Model of `openrouter_wrapper.generate_json_summary`, validation part (lines
94-109): parse, then require a dict containing `one_line` and `bullets`;
the parsed object is returned as-is. -/
def openrouterValidate (parse : String → Option JVal) (text : String) :
    Except VErr JVal :=
  match extractJson parse text with
  | none => .error .parseFail
  | some v =>
      if v.isObj ∧ v.hasKey "one_line" ∧ v.hasKey "bullets" then .ok v
      else .error .missingKeys

/-- One entry of cohere's `sources` normalization (lines 297-303): keep
`{note_id, score}` when coercible, default a missing score to 0, drop the
entry otherwise.  Coercibility is modelled for numeric JSON literals only;
Python's `int()`/`float()` would additionally accept numeric strings, a
branch no theorem below depends on. -/
def cohereSrcNorm (v : JVal) : Option JVal :=
  match v with
  | .jobj fs =>
      match fs.lookup "note_id" with
      | some (.jnum n) =>
          match fs.lookup "score" with
          | some (.jnum m) => some (.jobj [("note_id", .jnum n), ("score", .jnum m)])
          | some _ => none
          | none => some (.jobj [("note_id", .jnum n), ("score", .jnum 0)])
      | _ => none
  | _ => none

/-- Python dict assignment `fs[k] = v`: overwrite in place or append. -/
def setKey (fs : List (String × JVal)) (k : String) (v : JVal) :
    List (String × JVal) :=
  if fs.any (fun kv => decide (kv.1 = k)) then
    fs.map (fun kv => if kv.1 = k then (k, v) else kv)
  else fs ++ [(k, v)]

/-- Model of `cohere_wrapper.generate_json_summary`, validation part (lines 277-305):
same parse order and key check as openrouter, then `sources` normalization;
`one_line` and `bullets` are returned untouched. -/
def cohereValidate (parse : String → Option JVal) (text : String) :
    Except VErr JVal :=
  match extractJson parse text with
  | none => .error .parseFail
  | some v =>
      if v.isObj ∧ v.hasKey "one_line" ∧ v.hasKey "bullets" then
        match v with
        | .jobj fs =>
            match fs.lookup "sources" with
            | some (.jarr items) =>
                .ok (.jobj (setKey fs "sources" (.jarr (items.filterMap cohereSrcNorm))))
            | some _ => .ok (.jobj (setKey fs "sources" (.jarr [])))
            | none => .ok (.jobj fs)
        | _ => .ok v
      else .error .missingKeys

end SmartEmr

namespace SmartEmr

/-- Model of `_shorten_sentence(s, max_words)` from `hf_wrapper.py` (lines 133-137):
rejoin at most `max_words` whitespace-split words, appending `"..."` when
words were dropped. -/
def shortenSentence (s : String) (maxW : Nat) : String :=
  let words := pySplit s
  if words.length ≤ maxW then String.intercalate " " words
  else String.intercalate " " (words.take maxW) ++ "..."

/-- Python `str(value)` on a parsed JSON value (`dumps` approximates the
repr of containers). -/
def pyStr (dumps : JVal → String) : JVal → String
  | .jstr s => s
  | .jnum n => toString n
  | .jbool true => "True"
  | .jbool false => "False"
  | .jnull => "None"
  | v => dumps v

/-- The brevity post-processing of `hf_wrapper.generate_json_summary`
(lines 132-148): shorten `one_line` to 12 words, coerce a scalar `bullets`
into a one-element list, clip to 4 bullets, shorten each to the bullet word
limit (default 12). -/
def hfPost (dumps : JVal → String) (fs : List (String × JVal)) :
    List (String × JVal) :=
  let oneLine := shortenSentence
    (pyStr dumps ((fs.lookup "one_line").getD (.jstr ""))) 12
  let bullets0 :=
    match fs.lookup "bullets" with
    | some (.jarr items) => items
    | some v => [v]
    | none => []
  let bullets := (bullets0.take 4).map (fun b => JVal.jstr (shortenSentence (pyStr dumps b) 12))
  setKey (setKey fs "one_line" (.jstr oneLine)) "bullets" (.jarr bullets)

/-- The front half of `hf_wrapper.generate_json_summary` (lines 100-115):
unwrap `generated_text` shapes, return an already-dict response containing
`one_line` unvalidated, or fall back to treating the body as plain text.
`.error v` is the early `return parsed` (line 110). -/
def hfExtractText (dumps : JVal → String) (parse : String → Option JVal)
    (full : String) : Except JVal (Option String) :=
  match parse full with
  | none => .ok (some full)
  | some v =>
      match v with
      | .jarr (first :: _) =>
          match first with
          | .jobj fs =>
              match fs.lookup "generated_text" with
              | some (.jstr t) => .ok (some t)
              | some _ => .ok none
              | none => .ok (some (dumps v))
          | _ => .ok (some (dumps v))
      | .jarr [] => .ok (some full)
      | .jobj fs =>
          match fs.lookup "generated_text" with
          | some (.jstr t) => .ok (some t)
          | some _ => .ok none
          | none =>
              if fs.any (fun kv => decide (kv.1 = "one_line")) then .error v
              else .ok (some (dumps v))
      | _ => .ok (some (dumps v))

/-- Model of `hf_wrapper.generate_json_summary`, validation part (lines 97-150).
`.ok` carries the final summary object; `.error` a raised exception
(`.typeErr` models the `AttributeError` on a non-string `generated_text`,
line 104/106 followed by `text.find`). -/
def hfValidate (dumps : JVal → String) (parse : String → Option JVal)
    (full : String) : Except VErr JVal :=
  match hfExtractText dumps parse full with
  | .error v => .ok v
  | .ok none => .error .typeErr
  | .ok (some text) =>
      let s := pyFind text '{'
      let e := pyRFind text '}'
      if s ≠ -1 ∧ e ≠ -1 ∧ s < e then
        match parse (String.mk (pySlice text.data s (e + 1))) with
        | none => .error .parseFail
        | some p =>
            match p with
            | .jobj fs =>
                if (JVal.jobj fs).hasKey "one_line" ∧ (JVal.jobj fs).hasKey "bullets" then
                  .ok (.jobj (hfPost dumps fs))
                else .error .missingKeys
            | _ => .error .missingKeys
      else .error .parseFail

end SmartEmr

namespace SmartEmr

theorem wordsAux_wordsOk :
    ∀ (cs acc : List Char), (∀ c ∈ acc, ¬ c.isWhitespace) →
      ∀ w ∈ wordsAux cs acc, w ≠ [] ∧ ∀ c ∈ w, ¬ c.isWhitespace := by
  intro cs
  induction cs with
  | nil =>
      intro acc hacc w hw
      unfold wordsAux at hw
      by_cases h : acc.isEmpty
      · rw [if_pos h] at hw
        exact absurd hw (List.not_mem_nil w)
      · rw [if_neg h] at hw
        rw [List.mem_singleton] at hw
        subst hw
        refine ⟨?_, ?_⟩
        · intro hrev
          have : acc = [] := by simpa using congrArg List.reverse hrev
          rw [List.isEmpty_iff] at h
          exact h this
        · intro c hc
          exact hacc c (List.mem_reverse.mp hc)
  | cons c rest ih =>
      intro acc hacc w hw
      unfold wordsAux at hw
      by_cases hws : c.isWhitespace
      · rw [if_pos hws] at hw
        by_cases hacc0 : acc.isEmpty
        · rw [if_pos hacc0] at hw
          exact ih [] (by intro x hx; exact absurd hx (List.not_mem_nil x)) w hw
        · rw [if_neg hacc0] at hw
          rcases List.mem_cons.mp hw with hw | hw
          · subst hw
            refine ⟨?_, ?_⟩
            · intro hrev
              have : acc = [] := by simpa using congrArg List.reverse hrev
              rw [List.isEmpty_iff] at hacc0
              exact hacc0 this
            · intro x hx
              exact hacc x (List.mem_reverse.mp hx)
          · exact ih [] (by intro x hx; exact absurd hx (List.not_mem_nil x)) w hw
      · rw [if_neg hws] at hw
        refine ih (c :: acc) ?_ w hw
        intro x hx
        rcases List.mem_cons.mp hx with hx | hx
        · rw [hx]; exact hws
        · exact hacc x hx

theorem joinWordsCh_cons_append (a b : List Char) (rest : List (List Char)) :
    joinWordsCh ((a ++ b) :: rest) = a ++ joinWordsCh (b :: rest) := by
  cases rest with
  | nil => rfl
  | cons r rs => simp [joinWordsCh, List.append_assoc]

theorem intercalate_space_data (ws : List String) :
    (String.intercalate " " ws).data = joinWordsCh (ws.map String.data) := by
  cases ws with
  | nil => rfl
  | cons w rest =>
      show (String.intercalate.go w " " rest).data = _
      induction rest generalizing w with
      | nil => rfl
      | cons w2 rest2 ih =>
          show (String.intercalate.go (w ++ " " ++ w2) " " rest2).data = _
          rw [ih (w ++ " " ++ w2)]
          rw [List.map_cons, List.map_cons]
          rw [show (w ++ " " ++ w2).data = w.data ++ (' ' :: w2.data) by
            rw [String.data_append, String.data_append, List.append_assoc]; rfl]
          rw [joinWordsCh_cons_append w.data (' ' :: w2.data) (rest2.map String.data)]
          rw [show (' ' :: w2.data) = [' '] ++ w2.data from rfl]
          rw [joinWordsCh_cons_append [' '] w2.data (rest2.map String.data)]
          rfl

/-- Every word produced by `pySplit` is nonempty and whitespace-free. -/
theorem pySplit_wordsOk (s : String) :
    ∀ w ∈ pySplit s, w.data ≠ [] ∧ ∀ c ∈ w.data, ¬ c.isWhitespace := by
  intro w hw
  unfold pySplit at hw
  obtain ⟨cs, hcs, hEq⟩ := List.mem_map.mp hw
  have h := wordsAux_wordsOk s.data []
    (by intro x hx; exact absurd hx (List.not_mem_nil x)) cs hcs
  rw [← hEq]
  exact h

/-- Splitting inverts joining whitespace-free nonempty words with
spaces. -/
theorem pySplit_intercalate (ws : List String)
    (hok : ∀ w ∈ ws, w.data ≠ [] ∧ ∀ c ∈ w.data, ¬ c.isWhitespace) :
    pySplit (String.intercalate " " ws) = ws := by
  unfold pySplit
  rw [intercalate_space_data ws]
  rw [wordsAux_joinWordsCh (ws.map String.data)
    (by
      intro w hw
      obtain ⟨x, hx, hEq⟩ := List.mem_map.mp hw
      rw [← hEq]
      exact hok x hx)]
  rw [List.map_map]
  refine (List.map_congr_left ?_).trans (List.map_id ws)
  intro w _
  rfl

theorem wordsAux_join_append_length :
    ∀ (ws : List (List Char)) (extra : List Char), ws ≠ [] →
      (∀ w ∈ ws, w ≠ [] ∧ ∀ c ∈ w, ¬ c.isWhitespace) →
      (∀ c ∈ extra, ¬ c.isWhitespace) → extra ≠ [] →
      (wordsAux (joinWordsCh ws ++ extra) []).length = ws.length := by
  intro ws
  induction ws with
  | nil => intro extra h; exact absurd rfl h
  | cons w rest ih =>
      intro extra _ hok hex hexne
      have hw := hok w (List.mem_cons_self w rest)
      cases rest with
      | nil =>
          rw [show joinWordsCh [w] = w from rfl]
          rw [wordsAux_append_word w hw.2 extra []]
          rw [show extra = extra ++ [] from (List.append_nil extra).symm,
            wordsAux_append_word extra hex [] (w.reverse ++ [])]
          unfold wordsAux
          rw [if_neg (by
            simp only [List.isEmpty_iff, List.append_nil]
            intro hcon
            rcases List.append_eq_nil.mp hcon with ⟨h1, h2⟩
            exact hexne (by simpa using h1))]
          rfl
      | cons w2 rest2 =>
          rw [show joinWordsCh (w :: w2 :: rest2) = w ++ (' ' :: joinWordsCh (w2 :: rest2))
            from rfl]
          rw [List.append_assoc, wordsAux_append_word w hw.2 _ []]
          rw [show (' ' :: joinWordsCh (w2 :: rest2)) ++ extra
              = ' ' :: (joinWordsCh (w2 :: rest2) ++ extra) from rfl]
          unfold wordsAux
          rw [if_pos (by decide)]
          rw [if_neg (by
            simp only [List.isEmpty_iff, List.append_nil]
            intro hcon
            exact hw.1 (by simpa using congrArg List.reverse hcon))]
          rw [List.length_cons]
          rw [ih extra (by simp) (fun x hx => hok x (List.mem_cons_of_mem w hx)) hex hexne]
          rfl

end SmartEmr

namespace SmartEmr

theorem pySplit_length (t : String) :
    (pySplit t).length = (wordsAux t.data []).length := by
  unfold pySplit
  rw [List.length_map]

/-- The shortener never leaves more than `maxW` words. -/
theorem shortenSentence_wordcount (s : String) (maxW : Nat) (hW : 1 ≤ maxW) :
    (pySplit (shortenSentence s maxW)).length ≤ maxW := by
  unfold shortenSentence
  by_cases h : (pySplit s).length ≤ maxW
  · rw [if_pos h]
    rw [pySplit_intercalate (pySplit s) (pySplit_wordsOk s)]
    exact h
  · rw [if_neg h]
    have hlen := wordsAux_join_append_length
      (((pySplit s).take maxW).map String.data) ("...".data)
      (by
        intro hcon
        have h0 : (((pySplit s).take maxW).map String.data).length = 0 := by
          rw [hcon]; rfl
        rw [List.length_map, List.length_take] at h0
        omega)
      (by
        intro w hw
        obtain ⟨x, hx, hEq⟩ := List.mem_map.mp hw
        rw [← hEq]
        exact pySplit_wordsOk s x (List.mem_of_mem_take hx))
      (by decide)
      (by decide)
    have hdata : (String.intercalate " " ((pySplit s).take maxW) ++ "...").data
        = joinWordsCh (((pySplit s).take maxW).map String.data) ++ "...".data := by
      rw [String.data_append, intercalate_space_data]
    rw [pySplit_length, hdata, hlen, List.length_map, List.length_take]
    omega

/-- Assignment `fs[k] = v` makes `k` look up to `v`. -/
theorem lookup_setKey (fs : List (String × JVal)) (k : String) (v : JVal) :
    (setKey fs k v).lookup k = some v := by
  unfold setKey
  by_cases h : fs.any (fun kv => decide (kv.1 = k))
  · rw [if_pos h]
    induction fs with
    | nil => simp at h
    | cons kv rest ih =>
        rw [List.any_cons] at h
        by_cases hk : kv.1 = k
        · rw [List.map_cons, if_pos hk]
          simp [List.lookup]
        · rw [List.map_cons, if_neg hk]
          have h' : rest.any (fun kv => decide (kv.1 = k)) := by
            rcases Bool.or_eq_true_iff.mp h with h1 | h1
            · exact absurd (of_decide_eq_true h1) hk
            · exact h1
          have hne : (k == kv.1) = false := by
            rw [beq_eq_false_iff_ne]
            exact Ne.symm hk
          simp only [List.lookup, hne]
          exact ih h'
  · rw [if_neg h]
    induction fs with
    | nil => simp [List.lookup]
    | cons kv rest ih =>
        rw [List.any_cons] at h
        have hk : ¬ kv.1 = k := by
          intro hcon
          exact h (by simp [hcon])
        have h' : ¬ rest.any (fun kv => decide (kv.1 = k)) = true := by
          intro hcon
          exact h (by simp [hcon])
        have hne : (k == kv.1) = false := by
          rw [beq_eq_false_iff_ne]
          exact Ne.symm hk
        rw [List.cons_append]
        simp only [List.lookup, hne]
        exact ih h'

/-- C8 amended: the openrouter validator and the summarize endpoint perform
no brevity enforcement — the parsed provider response is returned completely
unmodified, so a 20-word `one_line` and a 6-entry `bullets` pass through
untouched (see the counterexample).  Brevity enforcement lives in the other
wrappers: the huggingface validator modelled here shortens `one_line` to at
most 12 words (rejoined from the first 12 words with a trailing `"..."` when
it was longer) and clips `bullets` to at most 4 entries, each shortened to
the 12-word bullet budget; the ollama and gpt4all wrappers clip and truncate
similarly with their own character limits. -/
theorem validator_brevity :
    (∀ s : String, (pySplit (shortenSentence s 12)).length ≤ 12)
    ∧ (∀ s : String, 12 < (pySplit s).length →
        shortenSentence s 12 = String.intercalate " " ((pySplit s).take 12) ++ "...")
    ∧ (∀ (dumps : JVal → String) (fs : List (String × JVal)),
        ∃ bullets : List JVal,
          (JVal.jobj (hfPost dumps fs)).lookup "bullets" = some (.jarr bullets)
          ∧ bullets.length ≤ 4
          ∧ ∀ b ∈ bullets, ∃ t : String, b = .jstr t ∧ (pySplit t).length ≤ 12)
    ∧ (∀ (parse : String → Option JVal) (raw : String) (v : JVal),
        openrouterValidate parse raw = .ok v → extractJson parse raw = some v) := by
  refine ⟨fun s => shortenSentence_wordcount s 12 (by omega), ?_, ?_, ?_⟩
  · intro s h
    unfold shortenSentence
    rw [if_neg (by omega)]
  · intro dumps fs
    refine ⟨_, lookup_setKey _ "bullets" _, ?_, ?_⟩
    · simp only [List.length_map, List.length_take]
      omega
    · intro b hb
      obtain ⟨x, _, hEq⟩ := List.mem_map.mp hb
      exact ⟨_, hEq.symm, shortenSentence_wordcount _ 12 (by omega)⟩
  · intro parse raw v h
    unfold openrouterValidate at h
    cases hx : extractJson parse raw with
    | none => rw [hx] at h; cases h
    | some w =>
        rw [hx] at h
        dsimp only at h
        by_cases hc : w.isObj ∧ w.hasKey "one_line" ∧ w.hasKey "bullets"
        · rw [if_pos hc] at h
          simp only [Except.ok.injEq] at h
          rw [h]
        · rw [if_neg hc] at h
          exact absurd h (by simp)

/-- Thirteen single-letter words, for the truncation witness. -/
def words13 : String := "a a a a a a a a a a a a a"

/-- One top-level JSON object with both required keys, for the
no-modification witness. -/
def objOk : JVal := .jobj [("one_line", .jstr "x"), ("bullets", .jarr [])]

/-- Witness for C8's amended theorem: a 13-word `one_line` is truncated with
an ellipsis by the huggingface shortener, and a validated openrouter object
is exactly the parsed one. -/
theorem validator_brevity_witness :
    shortenSentence words13 12
      = String.intercalate " " ((pySplit words13).take 12) ++ "..."
    ∧ extractJson (fun _ => some objOk) "r" = some objOk :=
  ⟨validator_brevity.2.1 words13 (by decide),
   validator_brevity.2.2.2 (fun _ => some objOk) "r" objOk rfl⟩

/-- Twenty single-letter words. -/
def words20 : String := "a a a a a a a a a a a a a a a a a a a a"

/-- Six bullets. -/
def bullets6 : List JVal :=
  [.jstr "b1", .jstr "b2", .jstr "b3", .jstr "b4", .jstr "b5", .jstr "b6"]

/-- A provider response with a 20-word `one_line` and 6 bullets. -/
def obj20 : JVal := .jobj [("one_line", .jstr words20), ("bullets", .jarr bullets6)]

/-- Counterexample to C8 as stated: the openrouter validator (the validation
step of the primary provider, also reached by the summarize endpoints)
returns the 20-word `one_line` and the 6-entry `bullets` entirely
unmodified — no 12-word truncation, no ellipsis, no clip to 4. -/
theorem openrouter_no_truncation_counterexample :
    openrouterValidate (fun _ => some obj20) "raw" = .ok obj20
    ∧ (pySplit words20).length = 20
    ∧ bullets6.length = 6 :=
  ⟨rfl, by decide, rfl⟩

/-- C7 amended: the openrouter and cohere validators follow the stated parse
order (direct parse of the full text first, then the slice from the first `{`
to the last `}`, else failure) and fail precisely when the parse succeeds but
`one_line` or `bullets` is missing; however, neither coerces a scalar
`bullets` — the parsed object is returned with `bullets` unchanged (see the
counterexample).  The scalar-to-one-element-list coercion is performed by
other wrappers — modelled here for `hf_wrapper.py` (and present in the same
form in the ollama and gpt4all wrappers) — not by the two validators the
claim cites. -/
theorem validate_parse_order_and_keys :
    (∀ (parse : String → Option JVal) (text : String) (v : JVal),
        parse text = some v → extractJson parse text = some v)
    ∧ (∀ (parse : String → Option JVal) (text : String),
        parse text = none →
        ¬ (pyFind text '{' ≠ -1 ∧ pyRFind text '}' ≠ -1
            ∧ pyFind text '{' < pyRFind text '}') →
        openrouterValidate parse text = .error .parseFail
          ∧ cohereValidate parse text = .error .parseFail)
    ∧ (∀ (parse : String → Option JVal) (text : String) (v : JVal),
        extractJson parse text = some v →
        ¬ (v.isObj ∧ v.hasKey "one_line" ∧ v.hasKey "bullets") →
        openrouterValidate parse text = .error .missingKeys
          ∧ cohereValidate parse text = .error .missingKeys)
    ∧ (∀ (parse : String → Option JVal) (text : String) (fs : List (String × JVal)),
        extractJson parse text = some (.jobj fs) →
        (JVal.jobj fs).hasKey "one_line" → (JVal.jobj fs).hasKey "bullets" →
        fs.lookup "sources" = none →
        openrouterValidate parse text = .ok (.jobj fs)
          ∧ cohereValidate parse text = .ok (.jobj fs))
    ∧ (∀ (dumps : JVal → String) (fs : List (String × JVal)) (s : String),
        fs.lookup "bullets" = some (.jstr s) →
        (JVal.jobj (hfPost dumps fs)).lookup "bullets"
          = some (.jarr [.jstr (shortenSentence s 12)])) := by
  refine ⟨?_, ?_, ?_, ?_, ?_⟩
  · intro parse text v h
    unfold extractJson
    rw [h]
  · intro parse text hp hcond
    have hx : extractJson parse text = none := by
      unfold extractJson
      rw [hp, if_neg hcond]
    constructor
    · unfold openrouterValidate
      rw [hx]
    · unfold cohereValidate
      rw [hx]
  · intro parse text v hx hkeys
    constructor
    · unfold openrouterValidate
      rw [hx]
      dsimp only
      rw [if_neg hkeys]
    · unfold cohereValidate
      rw [hx]
      dsimp only
      rw [if_neg hkeys]
  · intro parse text fs hx hk1 hk2
    intro hsrc
    have hkeys : (JVal.jobj fs).isObj ∧ (JVal.jobj fs).hasKey "one_line"
        ∧ (JVal.jobj fs).hasKey "bullets" := ⟨rfl, hk1, hk2⟩
    constructor
    · unfold openrouterValidate
      rw [hx]
      dsimp only
      rw [if_pos hkeys]
    · unfold cohereValidate
      rw [hx]
      dsimp only
      rw [if_pos hkeys]
      simp [hsrc]
  · intro dumps fs s h
    unfold hfPost
    rw [h]
    dsimp only
    exact lookup_setKey _ "bullets" _

/-- A provider response whose `bullets` is a scalar string. -/
def objScalar : JVal := .jobj [("one_line", .jstr "x"), ("bullets", .jstr "b")]

/-- Witness for C7's amended theorem at a concrete parse oracle and a
concrete scalar-bullets object. -/
theorem validate_parse_order_and_keys_witness :
    extractJson (fun _ => some objScalar) "r" = some objScalar
    ∧ openrouterValidate (fun _ => some (JVal.jarr [])) "r" = .error .missingKeys
    ∧ (JVal.jobj (hfPost (fun _ => "") [("one_line", .jstr "x"), ("bullets", .jstr "b")])).lookup
        "bullets" = some (.jarr [.jstr (shortenSentence "b" 12)]) :=
  ⟨validate_parse_order_and_keys.1 (fun _ => some objScalar) "r" objScalar rfl,
   (validate_parse_order_and_keys.2.2.1 (fun _ => some (JVal.jarr [])) "r"
      (JVal.jarr []) rfl (by simp [JVal.isObj])).1,
   validate_parse_order_and_keys.2.2.2.2 (fun _ => "")
      [("one_line", .jstr "x"), ("bullets", .jstr "b")] "b" rfl⟩

/-- Counterexample to C7 as stated: both cited validators return a scalar
`bullets` untouched — it is not coerced into a one-element sequence. -/
theorem scalar_bullets_not_coerced_counterexample :
    openrouterValidate (fun _ => some objScalar) "raw" = .ok objScalar
    ∧ cohereValidate (fun _ => some objScalar) "raw" = .ok objScalar
    ∧ objScalar.lookup "bullets" = some (.jstr "b") :=
  ⟨rfl, rfl, rfl⟩

end SmartEmr

namespace SmartEmr

/-! ### Q&A endpoint (`app/api/qa.py`, `qa`, lines 54-94)

After the 404 guard, the endpoint builds the retrieval items from the
patient's notes, runs the provider cascade plus answer-normalization inside a
`try`, and converts any raised exception into a normal error response.  The
cascade-and-normalize step is an oracle `outcome`: `.ok (answer?, one_line?,
confidence?, provider)` stands for the fields of the provider's dict reply,
`.error e` for any exception with message `e`. -/

/-- Python `str.strip()`. -/
def pyStrip (s : String) : String :=
  String.mk (((s.data.dropWhile Char.isWhitespace).reverse.dropWhile
    Char.isWhitespace).reverse)

structure AiReply where
  answer? : Option String
  one_line? : Option String
  confidence? : Option Int
  provider : String
  deriving DecidableEq, Repr

structure QaResp where
  answer : String
  sources : List (Int × String × Int)
  confidence : Int
  provider : String
  err : Bool
  deriving DecidableEq, Repr

/-- Python `a or b or c` over optional strings (`None` and `""` are falsy). -/
def pyOrStr (a b : Option String) (dflt : String) : String :=
  match a with
  | some s => if s ≠ "" then s else
      match b with
      | some t => if t ≠ "" then t else dflt
      | none => dflt
  | none =>
      match b with
      | some t => if t ≠ "" then t else dflt
      | none => dflt

/-- Model of `app/api/qa.py::qa` (lines 54-94) for an existing patient. -/
def qaRun (question : String) (notes : List NoteRec)
    (outcome : Except String AiReply) : QaResp :=
  let retrieved := notes.map (fun n => (n.id, pyStrip n.text, (1 : Int)))
  match outcome with
  | .ok r =>
      { answer := pyOrStr r.answer? r.one_line? ("Answer to: " ++ question),
        sources := (retrieved.take 3).map
          (fun t => (t.1, String.mk (t.2.1.data.take 200), t.2.2)),
        confidence := r.confidence?.getD 0,
        provider := r.provider,
        err := false }
  | .error e =>
      { answer := "I encountered an error while processing your question: "
          ++ question ++ ". Error: " ++ e,
        sources := [],
        confidence := 0,
        provider := "",
        err := true }

/-- C10: for an existing patient the qa endpoint never propagates a pipeline
exception: an exception becomes a normal response that embeds the question in
its answer, has an empty source list and carries `error = true`; a success
response carries at most 3 sources, each with its snippet cut to at most 200
characters. -/
theorem qa_error_handling :
    (∀ (question : String) (notes : List NoteRec) (e : String),
        (qaRun question notes (.error e)).err = true
        ∧ (qaRun question notes (.error e)).sources = []
        ∧ ∃ pre post : String,
            (qaRun question notes (.error e)).answer = pre ++ question ++ post)
    ∧ (∀ (question : String) (notes : List NoteRec) (r : AiReply),
        (qaRun question notes (.ok r)).sources.length ≤ 3
        ∧ ∀ src ∈ (qaRun question notes (.ok r)).sources, src.2.1.length ≤ 200) := by
  constructor
  · intro question notes e
    refine ⟨rfl, rfl, "I encountered an error while processing your question: ",
      ". Error: " ++ e, ?_⟩
    unfold qaRun
    dsimp only
    rw [String.append_assoc]
  · intro question notes r
    constructor
    · unfold qaRun
      dsimp only
      rw [List.length_map, List.length_take, List.length_map]
      omega
    · intro src hsrc
      unfold qaRun at hsrc
      dsimp only at hsrc
      obtain ⟨t, _, hEq⟩ := List.mem_map.mp hsrc
      rw [← hEq]
      show (String.mk (t.2.1.data.take 200)).length ≤ 200
      show (t.2.1.data.take 200).length ≤ 200
      rw [List.length_take]
      omega

/-- Witness for C10 at a concrete question, note set and both outcomes. -/
theorem qa_error_handling_witness :
    ((qaRun "q1" [⟨1, 7, " note "⟩] (.error "boom")).err = true
      ∧ (qaRun "q1" [⟨1, 7, " note "⟩] (.error "boom")).sources = []
      ∧ ∃ pre post : String,
          (qaRun "q1" [⟨1, 7, " note "⟩] (.error "boom")).answer = pre ++ "q1" ++ post)
    ∧ (qaRun "q1" [⟨1, 7, " note "⟩] (.ok ⟨some "ans", none, none, "openrouter"⟩)).sources.length ≤ 3 :=
  ⟨qa_error_handling.1 "q1" [⟨1, 7, " note "⟩] "boom",
   (qa_error_handling.2 "q1" [⟨1, 7, " note "⟩] ⟨some "ans", none, none, "openrouter"⟩).1⟩

end SmartEmr
